import Mathlib

/-!
Verification development for the sqlite-serve request pipeline.

Strings from the Rust sources are modelled as lists of characters
(`Str`); fallible Rust functions returning `Result` are modelled with
`Except`.  Stateful collaborators taken by `&mut` reference are modelled
by explicit state passing, polymorphic in the state type.  Unicode case
mapping is modelled on the ASCII range (the only range the validated
tokens use); `char::is_whitespace` is modelled with the full Unicode
White_Space list.
-/

namespace SqliteServe

/-- Rust string slices are modelled as lists of characters. -/
abbrev Str := List Char

/-- The Unicode White_Space code points recognised by Rust
`char::is_whitespace`. -/
def rustWhitespaceCodes : List Nat :=
  [0x09, 0x0A, 0x0B, 0x0C, 0x0D, 0x20, 0x85, 0xA0, 0x1680,
   0x2000, 0x2001, 0x2002, 0x2003, 0x2004, 0x2005, 0x2006, 0x2007,
   0x2008, 0x2009, 0x200A, 0x2028, 0x2029, 0x202F, 0x205F, 0x3000]

/-- Model of Rust `char::is_whitespace`. -/
def isRustWhitespace (c : Char) : Bool :=
  rustWhitespaceCodes.contains c.toNat

/-- Model of Rust `str::trim`: strip leading and trailing whitespace. -/
def rustTrim (s : Str) : Str :=
  ((s.dropWhile isRustWhitespace).reverse.dropWhile isRustWhitespace).reverse

/-- Model of Rust `str::to_uppercase`, restricted to the ASCII range
(identity elsewhere); the validated token SELECT is ASCII. -/
def rustToUpper (s : Str) : Str :=
  s.map Char.toUpper

/-- Model of Rust `str::to_lowercase`, restricted to the ASCII range
(identity elsewhere); the negotiated media tokens are ASCII. -/
def toLowerAscii (s : Str) : Str :=
  s.map Char.toLower

/-- Model of Rust `str::starts_with`. -/
def startsWith (s pat : Str) : Bool :=
  pat.isPrefixOf s

/-- Model of Rust `str::find` for a substring pattern: index of the first
occurrence.  Rust reports a byte offset; the character index used here
orders occurrences identically, which is all the code compares. -/
def findSub (s pat : Str) : Option Nat :=
  match s with
  | [] => if pat.isEmpty then some 0 else none
  | c :: rest =>
    if pat.isPrefixOf (c :: rest) then some 0
    else (findSub rest pat).map (· + 1)

/-- Model of Rust `str::contains` for a substring pattern. -/
def containsSub (s pat : Str) : Bool :=
  (findSub s pat).isSome

/-- The single-quote character, used inside Rust error messages. -/
def sq : Char := Char.ofNat 39

/-- Embedding of `SqlQuery::parse` (src/types.rs): trim and uppercase the
query, reject when empty or not starting with SELECT, keep the original
text on success. -/
def SqlQuery.parse (query : Str) : Except Str Str :=
  if rustToUpper (rustTrim query) = [] then .error "query cannot be empty".toList
  else if startsWith (rustToUpper (rustTrim query)) "SELECT".toList = false then
    .error "only SELECT queries are allowed".toList
  else .ok query

/-- Last path component of a path string, per Rust `Path::file_name`:
split on the separator, ignore empty and current-directory components,
and refuse a trailing parent-directory component. -/
def fileName (p : Str) : Option Str :=
  let comps := (p.splitOn '/').filter (fun c => !c.isEmpty && c ≠ ['.'])
  match comps.getLast? with
  | none => none
  | some last => if last = ['.', '.'] then none else some last

/-- The segment after the last dot of a list, if any dot occurs. -/
def afterLastDot : Str → Option Str
  | [] => none
  | c :: rest =>
    match afterLastDot rest with
    | some e => some e
    | none => if c = '.' then some rest else none

/-- Model of Rust `Path::extension`: the part of the file name after its
last dot, where a dot in the leading position does not count. -/
def extension (p : Str) : Option Str :=
  (fileName p).bind fun f =>
    match f with
    | [] => none
    | _ :: rest => afterLastDot rest

/-- Embedding of `TemplatePath::parse` (src/types.rs): non-empty and the
extension must equal hbs exactly. -/
def TemplatePath.parse (path : Str) : Except Str Str :=
  if path = [] then .error "template path cannot be empty".toList
  else if extension path ≠ some "hbs".toList then
    .error "template must be a .hbs file".toList
  else .ok path

/-- Embedding of `NginxVariable::parse` (src/types.rs). -/
def NginxVariable.parse (name : Str) : Except Str Str :=
  if name = [] then .error "variable name cannot be empty".toList
  else if !(startsWith name ['$']) then
    .error ("variable name must start with $: ".toList ++ name)
  else if name.drop 1 = [] then
    .error "variable name after $ cannot be empty".toList
  else .ok name

/-- Embedding of `ParamName::parse` (src/types.rs). -/
def ParamName.parse (name : Str) : Except Str Str :=
  if name = [] then .error "parameter name cannot be empty".toList
  else if !(startsWith name [':']) then
    .error ("parameter name must start with :: ".toList ++ name)
  else .ok name

/-- Embedding of the `ParameterBinding` enum (src/types.rs); the wrapped
`NginxVariable` and `ParamName` values are carried as their strings. -/
inductive ParameterBinding where
  | positional (var : Str)
  | positionalLiteral (value : Str)
  | named (name : Str) (var : Str)
  | namedLiteral (name : Str) (value : Str)
deriving DecidableEq

/-- Embedding of `parse_parameter_bindings` (src/parsing.rs): a raw pair
becomes a variable binding when the value starts with the sigil, else a
literal; an empty param name means positional, anything else must parse
as a colon-prefixed name. -/
def parse_parameter_bindings : List (Str × Str) → Except Str (List ParameterBinding)
  | [] => .ok []
  | (param_name, var_name) :: rest =>
    let bindingE : Except Str ParameterBinding :=
      if startsWith var_name ['$'] then
        match NginxVariable.parse var_name with
        | .error e =>
          .error ("invalid variable ".toList ++ [sq] ++ var_name ++ [sq] ++ ": ".toList ++ e)
        | .ok v =>
          if param_name = [] then .ok (.positional v)
          else
            match ParamName.parse param_name with
            | .error e =>
              .error ("invalid param name ".toList ++ [sq] ++ param_name ++ [sq] ++ ": ".toList ++ e)
            | .ok nm => .ok (.named nm v)
      else
        if param_name = [] then .ok (.positionalLiteral var_name)
        else
          match ParamName.parse param_name with
          | .error e =>
            .error ("invalid param name ".toList ++ [sq] ++ param_name ++ [sq] ++ ": ".toList ++ e)
          | .ok nm => .ok (.namedLiteral nm var_name)
    match bindingE with
    | .error e => .error e
    | .ok b => (parse_parameter_bindings rest).map (b :: ·)

/-- Embedding of `resolve_parameters` (src/domain.rs).  The injected
`&mut dyn VariableResolver` is modelled by explicit state passing,
polymorphic in the resolver state `σ`: `resolve` consumes a state and a
variable name and yields the successor state with the lookup result. -/
def resolve_parameters {σ : Type} (resolve : σ → Str → σ × Except Str Str) :
    σ → List ParameterBinding → σ × Except Str (List (Str × Str))
  | s, [] => (s, .ok [])
  | s, .positional v :: rest =>
    match resolve s v with
    | (s1, .error e) => (s1, .error e)
    | (s1, .ok value) =>
      match resolve_parameters resolve s1 rest with
      | (s2, r) => (s2, r.map (fun ps => (([] : Str), value) :: ps))
  | s, .positionalLiteral value :: rest =>
    match resolve_parameters resolve s rest with
    | (s2, r) => (s2, r.map (fun ps => (([] : Str), value) :: ps))
  | s, .named nm v :: rest =>
    match resolve s v with
    | (s1, .error e) => (s1, .error e)
    | (s1, .ok value) =>
      match resolve_parameters resolve s1 rest with
      | (s2, r) => (s2, r.map (fun ps => (nm, value) :: ps))
  | s, .namedLiteral nm value :: rest =>
    match resolve_parameters resolve s rest with
    | (s2, r) => (s2, r.map (fun ps => (nm, value) :: ps))

/-- The variable names of the variable bindings, in declaration order. -/
def variablesOf : List ParameterBinding → List Str
  | [] => []
  | .positional v :: rest => v :: variablesOf rest
  | .positionalLiteral _ :: rest => variablesOf rest
  | .named _ v :: rest => v :: variablesOf rest
  | .namedLiteral _ _ :: rest => variablesOf rest

/-- Reference run of the resolver over a list of variable names: stops at
the first failure, otherwise collects the values in order. -/
def runResolver {σ : Type} (resolve : σ → Str → σ × Except Str Str) :
    σ → List Str → σ × Except Str (List Str)
  | s, [] => (s, .ok [])
  | s, v :: vs =>
    match resolve s v with
    | (s1, .error e) => (s1, .error e)
    | (s1, .ok value) =>
      match runResolver resolve s1 vs with
      | (s2, r) => (s2, r.map (value :: ·))

/-- Rebuild the resolved pair list from the bindings and the values the
resolver produced for the variable bindings. -/
def fillValues : List ParameterBinding → List Str → List (Str × Str)
  | [], _ => []
  | .positional _ :: rest, value :: vs => (([] : Str), value) :: fillValues rest vs
  | .positional _ :: _, [] => []
  | .positionalLiteral value :: rest, vs => (([] : Str), value) :: fillValues rest vs
  | .named nm _ :: rest, value :: vs => (nm, value) :: fillValues rest vs
  | .named _ _ :: _, [] => []
  | .namedLiteral nm value :: rest, vs => (nm, value) :: fillValues rest vs

/-- Whether a binding is one of the named variants. -/
def isNamedBinding : ParameterBinding → Bool
  | .named _ _ => true
  | .namedLiteral _ _ => true
  | _ => false

/-- Whether a binding is one of the literal variants. -/
def isLiteralBinding : ParameterBinding → Bool
  | .positionalLiteral _ => true
  | .namedLiteral _ _ => true
  | _ => false

/-- The parameter name a binding contributes to its resolved pair. -/
def bindingName : ParameterBinding → Str
  | .positional _ => []
  | .positionalLiteral _ => []
  | .named nm _ => nm
  | .namedLiteral nm _ => nm

/-- The pair a literal binding resolves to (dummy value on the variable
variants, which are never consulted under a literal hypothesis). -/
def literalPair : ParameterBinding → Str × Str
  | .positional _ => ([], [])
  | .positionalLiteral value => ([], value)
  | .named nm _ => (nm, [])
  | .namedLiteral nm value => (nm, value)

/-- The `ParamName` invariant on bindings: named variants carry a
colon-prefixed (hence non-empty) name. -/
def namedNameOk : ParameterBinding → Bool
  | .named nm _ => startsWith nm [':']
  | .namedLiteral nm _ => startsWith nm [':']
  | _ => true

/-- How the prepared statement receives the resolved pairs in
`execute_query` (src/query.rs): all as named parameters, or all
positionally. -/
inductive Submission where
  | named (ps : List (Str × Str))
  | positional (vs : List Str)
deriving DecidableEq

/-- Embedding of the parameter-binding step of `execute_query`
(src/query.rs, the `has_named_params` decision): if any pair carries a
non-empty name, submit all pairs named; otherwise submit the values
positionally in order. -/
def bindParameters (params : List (Str × Str)) : Submission :=
  if params.any (fun p => !p.1.isEmpty) then .named params
  else .positional (params.map Prod.snd)

/-! ## Theorems -/

/-- Mapping a list to the empty list means the list was empty. -/
theorem rustToUpper_eq_nil {l : Str} (h : rustToUpper l = []) : l = [] := by
  simpa [rustToUpper] using h

/-- An ok value is ok. -/
theorem except_isOk_ok {e a : Type} (v : a) : (Except.ok v : Except e a).isOk = true := rfl

/-- An error value is not ok. -/
theorem except_isOk_error {e a : Type} (msg : e) : (Except.error msg : Except e a).isOk = false := rfl

/-- Evaluation of `SqlQuery.parse` on an empty trimmed query. -/
theorem SqlQuery.parse_eq_empty (q : Str) (h1 : rustToUpper (rustTrim q) = []) :
    SqlQuery.parse q = .error "query cannot be empty".toList := by
  unfold SqlQuery.parse
  rw [if_pos h1]

/-- Evaluation of `SqlQuery.parse` when the trimmed query starts with SELECT. -/
theorem SqlQuery.parse_eq_ok (q : Str) (h1 : rustToUpper (rustTrim q) ≠ [])
    (h2 : startsWith (rustToUpper (rustTrim q)) "SELECT".toList = true) :
    SqlQuery.parse q = .ok q := by
  unfold SqlQuery.parse
  rw [if_neg h1, if_neg]
  intro hc
  rw [h2] at hc
  cases hc

/-- Evaluation of `SqlQuery.parse` when the trimmed query does not start
with SELECT. -/
theorem SqlQuery.parse_eq_reject (q : Str) (h1 : rustToUpper (rustTrim q) ≠ [])
    (h2 : startsWith (rustToUpper (rustTrim q)) "SELECT".toList = false) :
    SqlQuery.parse q = .error "only SELECT queries are allowed".toList := by
  unfold SqlQuery.parse
  rw [if_neg h1, if_pos h2]

/-- Evaluation of `TemplatePath.parse` when the extension matches. -/
theorem templatePath_parse_eval_ok (p : Str) (h1 : p ≠ [])
    (h2 : extension p = some "hbs".toList) : TemplatePath.parse p = .ok p := by
  unfold TemplatePath.parse
  rw [if_neg h1, if_neg]
  intro hc
  exact hc h2

/-- Evaluation of `TemplatePath.parse` when the extension does not match. -/
theorem templatePath_parse_eval_reject (p : Str) (h1 : p ≠ [])
    (h2 : extension p ≠ some "hbs".toList) :
    TemplatePath.parse p = .error "template must be a .hbs file".toList := by
  unfold TemplatePath.parse
  rw [if_neg h1, if_pos h2]

/-- C3 (amended): SQL query validation succeeds if and only if the query
is non-empty and its trimmed, uppercased form starts with SELECT; the
original casing is preserved on success; a failure message names SELECT
whenever the trimmed query is non-empty, while an empty or
whitespace-only query is reported as empty instead. -/
theorem sqlQuery_parse_spec (q : Str) :
    ((SqlQuery.parse q).isOk = true ↔
      (q ≠ [] ∧ startsWith (rustToUpper (rustTrim q)) "SELECT".toList = true)) ∧
    (∀ v, SqlQuery.parse q = .ok v → v = q) ∧
    (∀ msg, SqlQuery.parse q = .error msg →
      (rustTrim q ≠ [] → containsSub msg "SELECT".toList = true) ∧
      (rustTrim q = [] → msg = "query cannot be empty".toList)) := by
  by_cases h1 : rustToUpper (rustTrim q) = []
  · have htrim : rustTrim q = [] := rustToUpper_eq_nil h1
    rw [SqlQuery.parse_eq_empty q h1]
    refine ⟨?_, ?_, ?_⟩
    · rw [except_isOk_error]
      constructor
      · intro h
        exact absurd h (by simp)
      · rintro ⟨-, hsw⟩
        rw [h1] at hsw
        exact absurd hsw (by decide)
    · intro v hv
      cases hv
    · intro msg hmsg
      cases hmsg
      exact ⟨fun hne => absurd htrim hne, fun _ => rfl⟩
  · by_cases h2 : startsWith (rustToUpper (rustTrim q)) "SELECT".toList = true
    · have hq : q ≠ [] := by
        intro hq
        subst hq
        exact h1 rfl
      rw [SqlQuery.parse_eq_ok q h1 h2]
      refine ⟨?_, ?_, ?_⟩
      · rw [except_isOk_ok]
        exact ⟨fun _ => ⟨hq, h2⟩, fun _ => rfl⟩
      · intro v hv
        cases hv
        rfl
      · intro msg hmsg
        cases hmsg
    · have h2f : startsWith (rustToUpper (rustTrim q)) "SELECT".toList = false := by
        simpa using h2
      rw [SqlQuery.parse_eq_reject q h1 h2f]
      refine ⟨?_, ?_, ?_⟩
      · rw [except_isOk_error]
        constructor
        · intro h
          exact absurd h (by simp)
        · rintro ⟨-, hsw⟩
          rw [hsw] at h2f
          cases h2f
      · intro v hv
        cases hv
      · intro msg hmsg
        cases hmsg
        refine ⟨fun _ => by decide, fun ht => absurd (by simp [rustToUpper, ht]) h1⟩

/-- C3 witness: the amended theorem applied at concrete queries. -/
theorem sqlQuery_parse_spec_witness :
    (SqlQuery.parse "SeLeCt 1".toList).isOk = true ∧
    containsSub "only SELECT queries are allowed".toList "SELECT".toList = true := by
  refine ⟨(sqlQuery_parse_spec "SeLeCt 1".toList).1.mpr ⟨by decide, by decide⟩, ?_⟩
  have h := (sqlQuery_parse_spec "DELETE FROM books".toList).2.2
    "only SELECT queries are allowed".toList
  refine (h ?_).1 (by decide)
  exact SqlQuery.parse_eq_reject "DELETE FROM books".toList (by decide) (by decide)

/-- C3 counterexample: the empty query fails validation, but its error
message does not name SELECT, contrary to the claim that every failure
message does. -/
theorem sqlQuery_parse_empty_message :
    SqlQuery.parse ([] : Str) = .error "query cannot be empty".toList ∧
    containsSub "query cannot be empty".toList "SELECT".toList = false := by
  exact ⟨SqlQuery.parse_eq_empty [] (by decide), by decide⟩

/-- C4: template-path validation succeeds if and only if the path is
non-empty and its extension equals the reserved suffix hbs exactly; the
comparison is case-sensitive, so the uppercase variant is rejected. -/
theorem templatePath_parse_spec :
    (∀ p : Str, (TemplatePath.parse p).isOk = true ↔
      (p ≠ [] ∧ extension p = some "hbs".toList)) ∧
    (TemplatePath.parse "template.HBS".toList).isOk = false := by
  refine ⟨?_, by decide⟩
  intro p
  by_cases h1 : p = []
  · subst h1
    constructor
    · intro h
      exact absurd h (by decide)
    · rintro ⟨hne, -⟩
      exact absurd rfl hne
  · by_cases h2 : extension p = some "hbs".toList
    · rw [templatePath_parse_eval_ok p h1 h2, except_isOk_ok]
      exact ⟨fun _ => ⟨h1, h2⟩, fun _ => rfl⟩
    · rw [templatePath_parse_eval_reject p h1 h2, except_isOk_error]
      constructor
      · intro h
        exact absurd h (by simp)
      · rintro ⟨-, hext⟩
        exact absurd hext h2

/-- C4 witness: the specification applied at concrete paths. -/
theorem templatePath_parse_spec_witness :
    (TemplatePath.parse "views/index.hbs".toList).isOk = true ∧
    (TemplatePath.parse "template.html".toList).isOk = false := by
  constructor
  · exact (templatePath_parse_spec.1 "views/index.hbs".toList).mpr ⟨by decide, by decide⟩
  · by_cases hb : (TemplatePath.parse "template.html".toList).isOk = true
    · have h := (templatePath_parse_spec.1 "template.html".toList).mp hb
      exact absurd h.2 (by decide)
    · simpa using hb

/-- Characterization of `resolve_parameters`: it runs the resolver over
exactly the variable names of the variable bindings, in declaration
order, stopping at the first failure, and on success rebuilds one pair
per binding. -/
theorem resolve_parameters_char {σ : Type} (resolve : σ → Str → σ × Except Str Str)
    (s : σ) (bs : List ParameterBinding) :
    resolve_parameters resolve s bs =
      ((runResolver resolve s (variablesOf bs)).1,
       (runResolver resolve s (variablesOf bs)).2.map (fillValues bs)) := by
  induction bs generalizing s with
  | nil => simp [resolve_parameters, runResolver, variablesOf, fillValues, Except.map]
  | cons b rest ih =>
    cases b with
    | positional v =>
      simp only [resolve_parameters, variablesOf, runResolver]
      rcases hres : resolve s v with ⟨s1, r⟩
      cases r with
      | error e => simp [Except.map]
      | ok value =>
        simp only
        rw [ih s1]
        rcases hrun : runResolver resolve s1 (variablesOf rest) with ⟨s2, r2⟩
        cases r2 <;> simp [fillValues, Except.map]
    | positionalLiteral value =>
      simp only [resolve_parameters, variablesOf]
      rw [ih s]
      rcases hrun : runResolver resolve s (variablesOf rest) with ⟨s2, r2⟩
      cases r2 <;> simp [fillValues, Except.map]
    | named nm v =>
      simp only [resolve_parameters, variablesOf, runResolver]
      rcases hres : resolve s v with ⟨s1, r⟩
      cases r with
      | error e => simp [Except.map]
      | ok value =>
        simp only
        rw [ih s1]
        rcases hrun : runResolver resolve s1 (variablesOf rest) with ⟨s2, r2⟩
        cases r2 <;> simp [fillValues, Except.map]
    | namedLiteral nm value =>
      simp only [resolve_parameters, variablesOf]
      rw [ih s]
      rcases hrun : runResolver resolve s (variablesOf rest) with ⟨s2, r2⟩
      cases r2 <;> simp [fillValues, Except.map]

/-- A successful resolver run yields one value per requested variable. -/
theorem runResolver_ok_length {σ : Type} (resolve : σ → Str → σ × Except Str Str) :
    ∀ (vs : List Str) (s : σ) (s2 : σ) (vals : List Str),
      runResolver resolve s vs = (s2, .ok vals) → vals.length = vs.length := by
  intro vs
  induction vs with
  | nil =>
    intro s s2 vals h
    simp [runResolver] at h
    simp [h.2.symm]
  | cons v rest ih =>
    intro s s2 vals h
    simp only [runResolver] at h
    rcases hres : resolve s v with ⟨s1, r⟩
    rw [hres] at h
    cases r with
    | error e => simp at h
    | ok value =>
      simp only at h
      rcases hrun : runResolver resolve s1 rest with ⟨s3, r2⟩
      rw [hrun] at h
      cases r2 with
      | error e => simp [Except.map] at h
      | ok l =>
        simp only [Except.map, Prod.mk.injEq, Except.ok.injEq] at h
        rw [← h.2]
        simp only [List.length_cons]
        rw [ih s1 s3 l hrun]

/-- On matching lengths, `fillValues` produces one pair per binding: the
pair carries the binding's parameter name, and a literal binding yields
exactly its configured pair. -/
theorem fillValues_spec :
    ∀ (bs : List ParameterBinding) (vals : List Str),
      vals.length = (variablesOf bs).length →
      List.Forall₂
        (fun b p => p.1 = bindingName b ∧ (isLiteralBinding b = true → p = literalPair b))
        bs (fillValues bs vals) := by
  intro bs
  induction bs with
  | nil =>
    intro vals h
    simp [fillValues]
  | cons b rest ih =>
    intro vals h
    cases b with
    | positional v =>
      cases vals with
      | nil => simp [variablesOf] at h
      | cons value vs =>
        simp only [variablesOf, List.length_cons, Nat.succ_inj] at h
        exact List.Forall₂.cons ⟨rfl, fun hlit => by simp [isLiteralBinding] at hlit⟩ (ih vs h)
    | positionalLiteral value =>
      simp only [variablesOf] at h
      exact List.Forall₂.cons ⟨rfl, fun _ => rfl⟩ (ih vals h)
    | named nm v =>
      cases vals with
      | nil => simp [variablesOf] at h
      | cons value vs =>
        simp only [variablesOf, List.length_cons, Nat.succ_inj] at h
        exact List.Forall₂.cons ⟨rfl, fun hlit => by simp [isLiteralBinding] at hlit⟩ (ih vs h)
    | namedLiteral nm value =>
      simp only [variablesOf] at h
      exact List.Forall₂.cons ⟨rfl, fun _ => rfl⟩ (ih vals h)

/-- A successful resolution is a `fillValues` image of a successful
resolver run over the variable names. -/
theorem resolve_parameters_ok_elim {σ : Type} (resolve : σ → Str → σ × Except Str Str)
    (s : σ) (bs : List ParameterBinding) (ps : List (Str × Str))
    (hok : (resolve_parameters resolve s bs).2 = .ok ps) :
    ∃ s2 vals, runResolver resolve s (variablesOf bs) = (s2, .ok vals) ∧
      vals.length = (variablesOf bs).length ∧ ps = fillValues bs vals := by
  rw [resolve_parameters_char resolve s bs] at hok
  rcases hrun : runResolver resolve s (variablesOf bs) with ⟨s2, r2⟩
  rw [hrun] at hok
  cases r2 with
  | error e => simp [Except.map] at hok
  | ok vals =>
    simp only [Except.map, Except.ok.injEq] at hok
    exact ⟨s2, vals, rfl, runResolver_ok_length resolve (variablesOf bs) s s2 vals hrun,
      hok.symm⟩

/-- A string starting with a given character is non-empty. -/
theorem startsWith_single_ne_nil {nm : Str} {c : Char} (h : startsWith nm [c] = true) :
    nm.isEmpty = false := by
  cases nm with
  | nil => simp [startsWith, List.isPrefixOf] at h
  | cons d rest => rfl

/-- On matching lengths and under the `ParamName` invariant, the rebuilt
pairs carry a non-empty name exactly when some binding is named. -/
theorem fillValues_any_named :
    ∀ (bs : List ParameterBinding) (vals : List Str),
      vals.length = (variablesOf bs).length →
      (∀ b ∈ bs, namedNameOk b = true) →
      (fillValues bs vals).any (fun p => !p.1.isEmpty) = bs.any isNamedBinding := by
  intro bs
  induction bs with
  | nil =>
    intro vals h hwf
    simp [fillValues]
  | cons b rest ih =>
    intro vals h hwf
    have hwfrest : ∀ b ∈ rest, namedNameOk b = true :=
      fun b hb => hwf b (List.mem_cons_of_mem _ hb)
    cases b with
    | positional v =>
      cases vals with
      | nil => simp [variablesOf] at h
      | cons value vs =>
        simp only [variablesOf, List.length_cons, Nat.succ_inj] at h
        simp [fillValues, isNamedBinding, ih vs h hwfrest]
    | positionalLiteral value =>
      simp only [variablesOf] at h
      simp [fillValues, isNamedBinding, ih vals h hwfrest]
    | named nm v =>
      cases vals with
      | nil => simp [variablesOf] at h
      | cons value vs =>
        simp only [variablesOf, List.length_cons, Nat.succ_inj] at h
        have hnm : nm.isEmpty = false :=
          startsWith_single_ne_nil (hwf _ (List.mem_cons_self _ _))
        simp [fillValues, isNamedBinding, hnm]
    | namedLiteral nm value =>
      simp only [variablesOf] at h
      have hnm : nm.isEmpty = false :=
        startsWith_single_ne_nil (hwf _ (List.mem_cons_self _ _))
      simp [fillValues, isNamedBinding, hnm]

/-- C5: the named/positional decision in `execute_query` is global and
computed once over the resolved pairs: when at least one binding is
named (so its pair carries a non-empty name), all pairs are submitted as
named parameters; otherwise all values are submitted positionally, in
declaration order. -/
theorem parameter_submission_global {σ : Type} (resolve : σ → Str → σ × Except Str Str)
    (s : σ) (bs : List ParameterBinding) (ps : List (Str × Str))
    (hwf : ∀ b ∈ bs, namedNameOk b = true)
    (hok : (resolve_parameters resolve s bs).2 = .ok ps) :
    (bs.any isNamedBinding = true → bindParameters ps = .named ps) ∧
    (bs.any isNamedBinding = false → bindParameters ps = .positional (ps.map Prod.snd)) := by
  obtain ⟨s2, vals, hrun, hlen, hfill⟩ := resolve_parameters_ok_elim resolve s bs ps hok
  subst hfill
  have hany := fillValues_any_named bs vals hlen hwf
  constructor
  · intro hnamed
    simp [bindParameters, hany, hnamed]
  · intro hpos
    simp [bindParameters, hany, hpos]

/-- C5 witness: the decision rule applied to a concrete mixed list with
one named binding, and to a concrete all-positional list. -/
theorem parameter_submission_global_witness :
    bindParameters [(":id".toList, "42".toList), ([], "x".toList)] =
      .named [(":id".toList, "42".toList), ([], "x".toList)] ∧
    bindParameters [([], "42".toList), ([], "x".toList)] =
      .positional ["42".toList, "x".toList] := by
  constructor
  · exact (parameter_submission_global (fun (s : Unit) _ => (s, .ok "42".toList)) ()
      [ParameterBinding.named ":id".toList "$arg_id".toList,
       ParameterBinding.positionalLiteral "x".toList] _
      (by decide) rfl).1 (by decide)
  · exact (parameter_submission_global (fun (s : Unit) _ => (s, .ok "42".toList)) ()
      [ParameterBinding.positional "$arg_id".toList,
       ParameterBinding.positionalLiteral "x".toList] _
      (by decide) rfl).2 (by decide)

/-- A list of literal bindings resolves without touching the resolver. -/
theorem resolve_parameters_all_literal {σ : Type} (resolve : σ → Str → σ × Except Str Str) :
    ∀ (bs : List ParameterBinding) (s : σ),
      (∀ b ∈ bs, isLiteralBinding b = true) →
      resolve_parameters resolve s bs = (s, .ok (bs.map literalPair)) := by
  intro bs
  induction bs with
  | nil =>
    intro s h
    simp [resolve_parameters]
  | cons b rest ih =>
    intro s h
    cases b with
    | positional v =>
      have hb := h _ (List.mem_cons_self _ _)
      simp [isLiteralBinding] at hb
    | named nm v =>
      have hb := h _ (List.mem_cons_self _ _)
      simp [isLiteralBinding] at hb
    | positionalLiteral value =>
      simp only [resolve_parameters]
      rw [ih s (fun b hb => h b (List.mem_cons_of_mem _ hb))]
      simp [Except.map, literalPair]
    | namedLiteral nm value =>
      simp only [resolve_parameters]
      rw [ih s (fun b hb => h b (List.mem_cons_of_mem _ hb))]
      simp [Except.map, literalPair]

/-- C6: literal bindings resolve to exactly their configured value
regardless of the resolver: a list of only literal bindings resolves
without failure (and without consulting or advancing the resolver state)
to the configured pairs, and in any successful resolution each literal
binding's position holds exactly its configured pair. -/
theorem literal_bindings_no_op {σ : Type} (resolve : σ → Str → σ × Except Str Str)
    (s : σ) (bs : List ParameterBinding) :
    ((∀ b ∈ bs, isLiteralBinding b = true) →
      resolve_parameters resolve s bs = (s, .ok (bs.map literalPair))) ∧
    (∀ ps, (resolve_parameters resolve s bs).2 = .ok ps →
      List.Forall₂ (fun b p => isLiteralBinding b = true → p = literalPair b) bs ps) := by
  constructor
  · intro hlit
    exact resolve_parameters_all_literal resolve bs s hlit
  · intro ps hok
    obtain ⟨s2, vals, hrun, hlen, hfill⟩ := resolve_parameters_ok_elim resolve s bs ps hok
    subst hfill
    exact List.Forall₂.imp (fun a b hab => hab.2) (fillValues_spec bs vals hlen)

/-- C6 witness: an all-literal list resolved with a resolver that always
fails still succeeds with the configured values and an unchanged state. -/
theorem literal_bindings_no_op_witness :
    resolve_parameters (fun (s : Unit) _ => (s, .error "no variables".toList)) ()
        [ParameterBinding.positionalLiteral "a".toList,
         ParameterBinding.namedLiteral ":n".toList "b".toList] =
      ((), .ok [([], "a".toList), (":n".toList, "b".toList)]) := by
  exact (literal_bindings_no_op (fun (s : Unit) _ => (s, .error "no variables".toList)) ()
    [ParameterBinding.positionalLiteral "a".toList,
     ParameterBinding.namedLiteral ":n".toList "b".toList]).1 (by decide)

/-- C10: parameter resolution is fail-fast and order/length preserving:
it equals the run of the resolver over exactly the variable names in
declaration order (so the resolver is not invoked past the first failing
lookup and that lookup's error is returned), and on success it yields
one pair per binding, in order, carrying the binding's name. -/
theorem resolve_parameters_fail_fast {σ : Type} (resolve : σ → Str → σ × Except Str Str)
    (s : σ) (bs : List ParameterBinding) :
    resolve_parameters resolve s bs =
      ((runResolver resolve s (variablesOf bs)).1,
       (runResolver resolve s (variablesOf bs)).2.map (fillValues bs)) ∧
    (∀ ps, (resolve_parameters resolve s bs).2 = .ok ps →
      List.Forall₂ (fun b p => p.1 = bindingName b) bs ps) := by
  refine ⟨resolve_parameters_char resolve s bs, ?_⟩
  intro ps hok
  obtain ⟨s2, vals, hrun, hlen, hfill⟩ := resolve_parameters_ok_elim resolve s bs ps hok
  subst hfill
  exact List.Forall₂.imp (fun a b hab => hab.1) (fillValues_spec bs vals hlen)

/-- C10 witness: with a resolver that logs each invocation in its state
and fails on the second variable, resolution returns that error and the
log shows the third variable was never requested; a successful run
yields name-matching pairs. -/
theorem resolve_parameters_fail_fast_witness :
    resolve_parameters
        (fun (s : List Str) v =>
          (s ++ [v], if v = "$b".toList then .error "missing".toList else .ok v))
        []
        [ParameterBinding.positional "$a".toList,
         ParameterBinding.positional "$b".toList,
         ParameterBinding.positional "$c".toList] =
      (["$a".toList, "$b".toList], .error "missing".toList) ∧
    List.Forall₂ (fun b p => p.1 = bindingName b)
      [ParameterBinding.positional "$a".toList,
       ParameterBinding.namedLiteral ":n".toList "lit".toList]
      [([], "$a".toList), (":n".toList, "lit".toList)] := by
  constructor
  · rw [(resolve_parameters_fail_fast
      (fun (s : List Str) v =>
        (s ++ [v], if v = "$b".toList then .error "missing".toList else .ok v))
      []
      [ParameterBinding.positional "$a".toList,
       ParameterBinding.positional "$b".toList,
       ParameterBinding.positional "$c".toList]).1]
    rfl
  · exact (resolve_parameters_fail_fast
      (fun (s : Unit) v => (s, .ok v)) ()
      [ParameterBinding.positional "$a".toList,
       ParameterBinding.namedLiteral ":n".toList "lit".toList]).2
      [([], "$a".toList), (":n".toList, "lit".toList)] rfl

/-! ## Row conversion (src/query.rs `row_to_map`) -/

/-- A byte. -/
abbrev Byte := Fin 256

/-- Model of an f64 as stored by SQLite: a finite value is an exact
rational; the non-finite values (not representable in JSON) are listed
explicitly. -/
inductive Double64 where
  | finite (q : ℚ)
  | nan
  | posInf
  | negInf
deriving DecidableEq

/-- Model of `serde_json::Number::from_f64`: defined exactly on finite
values, none on NaN and the infinities. -/
def numberFromF64 : Double64 → Option ℚ
  | .finite q => some q
  | .nan => none
  | .posInf => none
  | .negInf => none

/-- Model of `rusqlite::types::ValueRef`: the five SQLite storage
classes; text and blob carry raw bytes. -/
inductive SqlValueRef where
  | null
  | integer (v : Int)
  | real (v : Double64)
  | text (v : List Byte)
  | blob (v : List Byte)
deriving DecidableEq

/-- Model of `serde_json::Value` as used by the row conversion; objects
are ordered association lists. -/
inductive JsonValue where
  | null
  | intNum (v : Int)
  | floatNum (q : ℚ)
  | str (s : Str)
  | arr (xs : List JsonValue)
  | obj (fields : List (Str × JsonValue))

/-- A result row: column name to scalar, in declared column order. -/
abbrev Row := List (Str × JsonValue)

/-- A lowercase hexadecimal digit. -/
def hexDigit (n : Nat) : Char :=
  if n < 10 then Char.ofNat (48 + n) else Char.ofNat (87 + n)

/-- One byte as two lowercase hex digits, per Rust format `{:02x}`
applied to a u8. -/
def hexByte (b : Byte) : Str :=
  [hexDigit (b.val / 16), hexDigit (b.val % 16)]

/-- A blob as a lowercase hex string, per the blob arm of `row_to_map`. -/
def hexEncode (bs : List Byte) : Str :=
  (bs.map hexByte).flatten

/-- The Unicode replacement character. -/
def repl : Char := Char.ofNat 0xFFFD

/-- A UTF-8 continuation byte. -/
def isCont (b : Byte) : Bool :=
  0x80 ≤ b.val && b.val ≤ 0xBF

/-- Admissible second byte of a three-byte UTF-8 sequence. -/
def utf8Second3 (n : Nat) (b2 : Byte) : Bool :=
  if n = 0xE0 then 0xA0 ≤ b2.val && b2.val ≤ 0xBF
  else if n = 0xED then 0x80 ≤ b2.val && b2.val ≤ 0x9F
  else isCont b2

/-- Admissible second byte of a four-byte UTF-8 sequence. -/
def utf8Second4 (n : Nat) (b2 : Byte) : Bool :=
  if n = 0xF0 then 0x90 ≤ b2.val && b2.val ≤ 0xBF
  else if n = 0xF4 then 0x80 ≤ b2.val && b2.val ≤ 0x8F
  else isCont b2

/-- Decode one UTF-8 scalar (or one maximal invalid subpart, yielding
the replacement character) from the first byte and the remaining bytes;
returns the decoded character and the bytes not yet consumed. -/
def utf8Step (b1 : Byte) (rest : List Byte) : Char × List Byte :=
  if b1.val < 0x80 then (Char.ofNat b1.val, rest)
  else if 0xC2 ≤ b1.val && b1.val ≤ 0xDF then
    match rest with
    | [] => (repl, [])
    | b2 :: rest2 =>
      if isCont b2 then
        (Char.ofNat ((b1.val - 0xC0) * 0x40 + (b2.val - 0x80)), rest2)
      else (repl, b2 :: rest2)
  else if 0xE0 ≤ b1.val && b1.val ≤ 0xEF then
    match rest with
    | [] => (repl, [])
    | b2 :: rest2 =>
      if utf8Second3 b1.val b2 then
        match rest2 with
        | [] => (repl, [])
        | b3 :: rest3 =>
          if isCont b3 then
            (Char.ofNat ((b1.val - 0xE0) * 0x1000 + (b2.val - 0x80) * 0x40 + (b3.val - 0x80)),
             rest3)
          else (repl, b3 :: rest3)
      else (repl, b2 :: rest2)
  else if 0xF0 ≤ b1.val && b1.val ≤ 0xF4 then
    match rest with
    | [] => (repl, [])
    | b2 :: rest2 =>
      if utf8Second4 b1.val b2 then
        match rest2 with
        | [] => (repl, [])
        | b3 :: rest3 =>
          if isCont b3 then
            match rest3 with
            | [] => (repl, [])
            | b4 :: rest4 =>
              if isCont b4 then
                (Char.ofNat ((b1.val - 0xF0) * 0x40000 + (b2.val - 0x80) * 0x1000 +
                    (b3.val - 0x80) * 0x40 + (b4.val - 0x80)),
                 rest4)
              else (repl, b4 :: rest4)
          else (repl, b3 :: rest3)
      else (repl, b2 :: rest2)
  else (repl, rest)

/-- The decoder step never leaves more bytes than it was given. -/
theorem utf8Step_length_le (b1 : Byte) (rest : List Byte) :
    (utf8Step b1 rest).2.length ≤ rest.length := by
  unfold utf8Step
  repeat' split
  all_goals simp_all
  all_goals omega

/-- Model of Rust `String::from_utf8_lossy`: decode UTF-8, replacing
each maximal invalid subpart with one replacement character. -/
def fromUtf8Lossy : List Byte → List Char
  | [] => []
  | b1 :: rest =>
    (utf8Step b1 rest).1 :: fromUtf8Lossy (utf8Step b1 rest).2
termination_by l => l.length
decreasing_by
  simp only [List.length_cons]
  exact Nat.lt_succ_of_le (utf8Step_length_le _ _)

/-- Embedding of the scalar conversion inside `row_to_map`
(src/query.rs): the fixed mapping from SQLite storage classes to JSON
scalars. -/
def convertValue : SqlValueRef → JsonValue
  | .null => .null
  | .integer v => .intNum v
  | .real v =>
    match numberFromF64 v with
    | some q => .floatNum q
    | none => .null
  | .text v => .str (fromUtf8Lossy v)
  | .blob v => .str (hexEncode v)

/-- Embedding of the `row_to_map` closure (src/query.rs): convert each
column in declared order; a column index beyond the row is the
`get_ref` failure.  The Rust HashMap insertion is modelled by an ordered
association list. -/
def row_to_map : List Str → List SqlValueRef → Except Str Row
  | [], _ => .ok []
  | _ :: _, [] => .error "InvalidColumnIndex".toList
  | nm :: ns, v :: vs => (row_to_map ns vs).map (fun rest => (nm, convertValue v) :: rest)

/-- Hex digits of values below sixteen are lowercase hex characters. -/
theorem hexDigit_mem (k : Nat) (h : k < 16) :
    hexDigit k ∈ "0123456789abcdef".toList := by
  interval_cases k <;> decide

/-- C7: row conversion maps each column in declared order by the fixed
four-way scalar mapping: null to null, integer to integer, finite real
to its floating-point value and non-representable reals to null, text to
the lossy UTF-8 decoding of its bytes, blob to a lowercase hex string of
twice the byte length. -/
theorem row_to_map_spec :
    (∀ (names : List Str) (row : List SqlValueRef),
      names.length ≤ row.length →
      row_to_map names row =
        .ok ((names.zip row).map (fun p => (p.1, convertValue p.2)))) ∧
    (convertValue .null = .null) ∧
    (∀ i : Int, convertValue (.integer i) = .intNum i) ∧
    (∀ q : ℚ, convertValue (.real (.finite q)) = .floatNum q) ∧
    (convertValue (.real .nan) = .null ∧ convertValue (.real .posInf) = .null ∧
      convertValue (.real .negInf) = .null) ∧
    (∀ bs, convertValue (.text bs) = .str (fromUtf8Lossy bs)) ∧
    (∀ bs, convertValue (.blob bs) = .str (hexEncode bs)) ∧
    (∀ bs, (hexEncode bs).length = 2 * bs.length ∧
      ∀ c ∈ hexEncode bs, c ∈ "0123456789abcdef".toList) := by
  refine ⟨?_, rfl, fun i => rfl, fun q => rfl, ⟨rfl, rfl, rfl⟩, fun bs => rfl, fun bs => rfl, ?_⟩
  · intro names
    induction names with
    | nil =>
      intro row h
      simp [row_to_map]
    | cons nm ns ih =>
      intro row h
      cases row with
      | nil => simp at h
      | cons v vs =>
        simp only [List.length_cons, Nat.succ_le_succ_iff] at h
        simp [row_to_map, ih vs h, Except.map]
  · intro bs
    constructor
    · induction bs with
      | nil => rfl
      | cons b rest ih =>
        simp only [hexEncode, List.map_cons, List.flatten_cons, List.length_append] at ih ⊢
        simp [hexByte, ih]
        ring
    · intro c hc
      induction bs with
      | nil => simp [hexEncode] at hc
      | cons b rest ih =>
        simp only [hexEncode, List.map_cons, List.flatten_cons, List.mem_append] at hc
        rcases hc with hc | hc
        · simp only [hexByte, List.mem_cons, List.mem_singleton] at hc
          rcases hc with hc | hc | hc
          · exact hc ▸ hexDigit_mem _ (Nat.div_lt_of_lt_mul (by exact b.isLt))
          · exact hc ▸ hexDigit_mem _ (Nat.mod_lt _ (by norm_num))
          · cases hc
        · exact ih hc

/-- C7 witness: the characterization applied to a concrete two-column
row containing an integer and a blob. -/
theorem row_to_map_spec_witness :
    row_to_map ["id".toList, "data".toList]
        [SqlValueRef.integer 42, SqlValueRef.blob [(0xDE : Byte), (0xAD : Byte)]] =
      .ok [("id".toList, JsonValue.intNum 42),
           ("data".toList, JsonValue.str "dead".toList)] := by
  have h := row_to_map_spec.1 ["id".toList, "data".toList]
    [SqlValueRef.integer 42, SqlValueRef.blob [(0xDE : Byte), (0xAD : Byte)]] (by decide)
  rw [h]
  rfl

/-! ## Template registry and orchestrator (src/template.rs, src/domain.rs) -/

/-- The file environment seen by the template subsystem: reading and
parsing a template file at a path (one fallible operation, as in
`register_template_file`), and listing the (stem, full path) pairs of
the regular files with the template extension inside a directory, in
scan order; a missing or non-directory path lists nothing. -/
structure FS where
  readTemplateFile : Str → Except Str Str
  listDir : Str → List (Str × Str)

/-- The Handlebars registry, modelled as an ordered association list
where the most recent registration is in front. -/
abbrev Registry := List (Str × Str)

/-- Template lookup: the most recent registration under a name. -/
def getTemplate (reg : Registry) (name : Str) : Option Str :=
  (reg.find? (fun p => decide (p.1 = name))).map Prod.snd

/-- Embedding of `Handlebars::register_template_file` as used by
`HandlebarsAdapter::register_template` (src/template.rs): parse the file
at the path and bind it to the name, overwriting any prior
registration; a read or parse failure leaves the registry unchanged. -/
def register_template_file (fs : FS) (reg : Registry) (name path : Str) :
    Registry × Except Str Unit :=
  match fs.readTemplateFile path with
  | .ok tpl => ((name, tpl) :: reg, .ok ())
  | .error e => (reg, .error e)

/-- Embedding of `load_templates_from_dir` (src/template.rs): register
each listed file under its stem, skipping per-file failures, and count
the successes. -/
def load_templates_from_dir (fs : FS) (reg : Registry) (dir : Str) : Registry × Nat :=
  (fs.listDir dir).foldl
    (fun acc entry =>
      match fs.readTemplateFile entry.2 with
      | .ok tpl => ((entry.1, tpl) :: acc.1, acc.2 + 1)
      | .error _ => acc)
    (reg, 0)

/-- The injected template capabilities of `RequestProcessor`
(src/domain.rs `TemplateLoader` and `TemplateRenderer`), modelled with
explicit state passing in the loader state `σ`. -/
structure TemplateCaps (σ : Type) where
  load_from_dir : σ → Str → σ × Except Str Nat
  register_template : σ → Str → Str → σ × Except Str Unit
  render : σ → Str → JsonValue → Except Str Str

/-- The `HandlebarsAdapter` instantiation of the template capabilities
(src/template.rs): directory loads and file registration against the
registry, rendering by looking up the template source and applying the
injected handlebars rendering semantics. -/
def hbsCaps (fs : FS) (renderFn : Str → JsonValue → Except Str Str) :
    TemplateCaps Registry :=
  ⟨fun reg dir =>
      ((load_templates_from_dir fs reg dir).1, .ok (load_templates_from_dir fs reg dir).2),
   fun reg name path => register_template_file fs reg name path,
   fun reg name data =>
      match getTemplate reg name with
      | none => .error "template not found".toList
      | some tpl => renderFn tpl data⟩

/-- Embedding of `ValidatedConfig` (src/domain.rs); the validated
wrapper types are carried as their strings. -/
structure ValidatedConfig where
  db_path : Str
  query : Str
  template_path : Str
  parameters : List ParameterBinding
  doc_root : Str
  uri : Str

/-- Embedding of `ResolvedTemplate` (src/domain.rs). -/
structure ResolvedTemplate where
  full_path : Str
  directory : Str
deriving DecidableEq

/-- Model of Rust `Path::parent` followed by `unwrap_or("")`: the part
of the path before its final separator. -/
def parentDir (p : Str) : Str :=
  ((p.reverse.dropWhile (· != '/')).drop 1).reverse

/-- Embedding of `resolve_template_path` (src/domain.rs): doc_root, uri,
a separator and the template path, with the containing directory. -/
def resolve_template_path (config : ValidatedConfig) : ResolvedTemplate :=
  ⟨config.doc_root ++ config.uri ++ ['/'] ++ config.template_path,
   parentDir (config.doc_root ++ config.uri ++ ['/'] ++ config.template_path)⟩

/-- The render data of the full path: the rows under a results key, per
`json!({"results": results})` in `RequestProcessor::process`. -/
def resultsData (results : List Row) : JsonValue :=
  .obj [("results".toList, .arr (results.map JsonValue.obj))]

/-- Embedding of `RequestProcessor::process` (src/domain.rs): execute
the query (abort on failure), best-effort load the global directory when
configured and then the local directory, register the main template
under the reserved name (abort on failure), and render the reserved
name against the results (abort on failure).  Logging never alters
control flow and is omitted. -/
def process {σQ σT : Type}
    (execute : σQ → Str → Str → List (Str × Str) → Except Str (List Row))
    (caps : TemplateCaps σT) (qstate : σQ) (tstate : σT)
    (config : ValidatedConfig) (resolved_template : ResolvedTemplate)
    (resolved_params : List (Str × Str)) (global_template_dir : Option Str) :
    σT × Except Str Str :=
  match execute qstate config.db_path config.query resolved_params with
  | .error e => (tstate, .error ("query execution failed: ".toList ++ e))
  | .ok results =>
    let t1 :=
      match global_template_dir with
      | some dir => (caps.load_from_dir tstate dir).1
      | none => tstate
    let t2 := (caps.load_from_dir t1 resolved_template.directory).1
    match caps.register_template t2 "template".toList resolved_template.full_path with
    | (t3, .error e) => (t3, .error ("failed to register template: ".toList ++ e))
    | (t3, .ok _) =>
      match caps.render t3 "template".toList (resultsData results) with
      | .error e => (t3, .error ("rendering failed: ".toList ++ e))
      | .ok body => (t3, .ok body)

/-! ## Content negotiation (src/content_type.rs) -/

/-- The two response representations. -/
inductive ContentType where
  | html
  | json
deriving DecidableEq

/-- The request data visible to the handler: query-level arguments and
the request headers. -/
structure RequestModel where
  args : List (Str × Str)
  headers : List (Str × Str)

/-- Model of `str::eq_ignore_ascii_case`. -/
def eqIgnoreAsciiCase (a b : Str) : Bool :=
  decide (toLowerAscii a = toLowerAscii b)

/-- The body of the Accept-header test in `negotiate_content_type`
(src/content_type.rs): the lowercased value must contain the JSON token,
and the HTML token must be absent or first occur strictly later. -/
def jsonAccepted (value : Str) : Bool :=
  if containsSub (toLowerAscii value) "application/json".toList then
    match findSub (toLowerAscii value) "application/json".toList,
        findSub (toLowerAscii value) "text/html".toList with
    | some _, none => true
    | some j, some h => decide (j < h)
    | none, _ => false
  else false

/-- The header scan of `negotiate_content_type`: the first Accept header
whose value prefers JSON decides JSON; otherwise the default is HTML. -/
def negotiateHeaders : List (Str × Str) → ContentType
  | [] => .html
  | (k, v) :: rest =>
    if eqIgnoreAsciiCase k "accept".toList then
      if jsonAccepted v then .json else negotiateHeaders rest
    else negotiateHeaders rest

/-- Embedding of `negotiate_content_type` (src/content_type.rs): the
function reads only the request headers. -/
def negotiate_content_type (request : RequestModel) : ContentType :=
  negotiateHeaders request.headers

/-- Modelled from the spec: the negotiation policy the claim states,
which also honours an explicit query-level flag for structured output.
No such flag exists in the code, whose negotiator reads only the
preference headers; this definition exists to compare the claimed
policy with the embedded one. -/
def negotiate_claimed (jsonFlag : Bool) (headers : List (Str × Str)) : ContentType :=
  if jsonFlag then .json
  else if headers.any (fun p => eqIgnoreAsciiCase p.1 "accept".toList && jsonAccepted p.2) then
    .json
  else .html

/-! ## Request handler (src/handler_types.rs, src/nginx_helpers.rs) -/

/-- The transport outcome of a processed request: a bare status returned
to the host without a body (the parameter-failure path), or a response
emitted through `send_response_with_content_type`, which sets the given
status before transmission. -/
inductive Outcome where
  | status (code : Nat)
  | response (code : Nat) (body : Str) (content_type : ContentType)

/-- The transport status of an outcome. -/
def Outcome.code : Outcome → Nat
  | .status c => c
  | .response c _ _ => c

/-- The serde serialization capabilities used by `execute_json`:
serializing the row list (`to_string_pretty`) and serializing the error
envelope for a failure detail string. -/
structure JsonCaps where
  to_string_pretty : List Row → Except Str Str
  to_string_error : Str → Except Str Str

/-- The literal fallback body when even the error envelope fails to
serialize. -/
def jsonErrorFallback : Str :=
  "\x7b\"error\":\"serialization failed\"\x7d".toList

/-- Embedding of `execute_json` (src/handler_types.rs): run the query;
serialize the rows, degrading to an empty list body when serialization
fails; on query failure serialize an error envelope instead. -/
def execute_json {σQ : Type}
    (execute : σQ → Str → Str → List (Str × Str) → Except Str (List Row))
    (jsonCaps : JsonCaps) (qstate : σQ) (config : ValidatedConfig)
    (resolved_params : List (Str × Str)) : Str :=
  match execute qstate config.db_path config.query resolved_params with
  | .ok results =>
    match jsonCaps.to_string_pretty results with
    | .ok s => s
    | .error _ => "[]".toList
  | .error e =>
    match jsonCaps.to_string_error e with
    | .ok s => s
    | .error _ => jsonErrorFallback

/-- The markup before the error detail in the fallback error page of
`execute_with_processor` (src/handler_types.rs). -/
def errorPageHead : String :=
  "<!DOCTYPE html>\n<html>\n<head><title>Error - sqlite-serve</title></head>\n<body style=\"font-family: monospace; max-width: 800px; margin: 2rem auto; padding: 0 1rem;\">\n    <h1 style=\"color: #CC9393;\">Request Processing Error</h1>\n    <p style=\"color: #A6A689;\">An error occurred while processing your request.</p>\n    <details style=\"margin-top: 1rem; background: #1111; padding: 1rem; border-left: 3px solid #CC9393;\">\n        <summary style=\"cursor: pointer; color: #DFAF8F; font-weight: bold;\">Error Details</summary>\n        <pre style=\"margin-top: 1rem; color: #DCDCCC; overflow-x: auto;\">"

/-- The markup after the error detail in the fallback error page. -/
def errorPageTail : String :=
  "</pre>\n    </details>\n    <p style=\"margin-top: 2rem;\"><a href=\"/\" style=\"color: #7CB8BB;\">← Back to Home</a></p>\n</body>\n</html>"

/-- The user-friendly error page built around the error detail. -/
def error_page (e : Str) : Str :=
  errorPageHead.toList ++ e ++ errorPageTail.toList

/-- Embedding of `process_request` (src/handler_types.rs): resolve the
template path, resolve parameters (returning status 400 on failure
without emitting a body), negotiate the representation, then either
serialize directly (JSON) or run the full processor and emit the
rendered body or the fallback error page (HTML); every emitted response
is sent with status 200 by `send_response_with_content_type`
(src/nginx_helpers.rs). -/
def process_request {σR σQ σT : Type}
    (resolve : σR → Str → σR × Except Str Str)
    (execute : σQ → Str → Str → List (Str × Str) → Except Str (List Row))
    (caps : TemplateCaps σT) (jsonCaps : JsonCaps) (request : RequestModel)
    (rstate : σR) (qstate : σQ) (tstate : σT)
    (config : ValidatedConfig) (global_template_dir : Option Str) :
    σT × Outcome :=
  let resolved_template := resolve_template_path config
  match (resolve_parameters resolve rstate config.parameters).2 with
  | .error _ => (tstate, .status 400)
  | .ok resolved_params =>
    match negotiate_content_type request with
    | .json =>
      (tstate,
        .response 200 (execute_json execute jsonCaps qstate config resolved_params) .json)
    | .html =>
      match process execute caps qstate tstate config resolved_template resolved_params
          global_template_dir with
      | (t2, .ok html) => (t2, .response 200 html .html)
      | (t2, .error e) => (t2, .response 200 (error_page e) .html)

/-! ## Concrete instances used by witnesses and counterexamples -/

/-- A resolver that returns every variable name as its value. -/
def trivialResolver : Unit → Str → Unit × Except Str Str :=
  fun s v => (s, .ok v)

/-- A resolver that fails every lookup. -/
def failResolver : Unit → Str → Unit × Except Str Str :=
  fun s _ => (s, .error "nope".toList)

/-- An executor that fails every query. -/
def failExecutor : Unit → Str → Str → List (Str × Str) → Except Str (List Row) :=
  fun _ _ _ _ => .error "boom".toList

/-- An executor that returns no rows. -/
def okExecutor : Unit → Str → Str → List (Str × Str) → Except Str (List Row) :=
  fun _ _ _ _ => .ok []

/-- Trivial template capabilities over a unit state. -/
def unitCaps : TemplateCaps Unit :=
  ⟨fun s _ => (s, .ok 0), fun s _ _ => (s, .ok ()), fun _ _ _ => .ok []⟩

/-- Serialization capabilities that always succeed. -/
def trivialJsonCaps : JsonCaps :=
  ⟨fun _ => .ok "[]".toList, fun e => .ok e⟩

/-- Serialization capabilities whose row serializer always fails. -/
def badSerializer : JsonCaps :=
  ⟨fun _ => .error "not serializable".toList, fun e => .ok e⟩

/-- A concrete parameterless configuration. -/
def sampleConfig : ValidatedConfig :=
  ⟨"db".toList, "SELECT 1".toList, "t.hbs".toList, [], [], []⟩

/-- A concrete configuration with one variable binding. -/
def varConfig : ValidatedConfig :=
  ⟨"db".toList, "SELECT 1".toList, "t.hbs".toList,
   [ParameterBinding.positional "$a".toList], [], []⟩

/-- A request with no arguments and no headers. -/
def emptyRequest : RequestModel := ⟨[], []⟩

/-- A request whose Accept header prefers JSON. -/
def jsonRequest : RequestModel :=
  ⟨[], [("Accept".toList, "application/json".toList)]⟩

/-! ## Theorems about templates, negotiation and the handler -/

/-- C8: template registration is last-write-wins: registering a name
over any prior registry contents always serves the new content under
that name; consequently, in the full pipeline the main template,
registered under the reserved name as the final loading step, wins for
that name regardless of what the global and local directory scans
loaded before. -/
theorem template_last_write_wins :
    (∀ (fs : FS) (reg : Registry) (name path tpl : Str),
      fs.readTemplateFile path = .ok tpl →
      getTemplate (register_template_file fs reg name path).1 name = some tpl) ∧
    (∀ (σQ : Type) (execute : σQ → Str → Str → List (Str × Str) → Except Str (List Row))
      (fs : FS) (renderFn : Str → JsonValue → Except Str Str) (qstate : σQ)
      (reg : Registry) (config : ValidatedConfig) (rt : ResolvedTemplate)
      (params : List (Str × Str)) (gdir : Option Str) (results : List Row) (tpl : Str),
      execute qstate config.db_path config.query params = .ok results →
      fs.readTemplateFile rt.full_path = .ok tpl →
      getTemplate
        (process execute (hbsCaps fs renderFn) qstate reg config rt params gdir).1
        "template".toList = some tpl) := by
  constructor
  · intro fs reg name path tpl hread
    simp [register_template_file, hread, getTemplate, List.find?]
  · intro σQ execute fs renderFn qstate reg config rt params gdir results tpl hexec hread
    have hreg : ∀ r : Registry,
        register_template_file fs r "template".toList rt.full_path =
          (("template".toList, tpl) :: r, .ok ()) := by
      intro r
      simp [register_template_file, hread]
    simp only [process, hexec]
    rw [show (hbsCaps fs renderFn).register_template = register_template_file fs from rfl,
      hreg]
    simp only
    cases hrender : (hbsCaps fs renderFn).render
        (("template".toList, tpl) ::
          ((hbsCaps fs renderFn).load_from_dir
            (match gdir with
              | some dir => ((hbsCaps fs renderFn).load_from_dir reg dir).1
              | none => reg)
            rt.directory).1)
        "template".toList (resultsData results) with
    | error e => simp [hrender, getTemplate, List.find?]
    | ok body => simp [hrender, getTemplate, List.find?]

/-- C8 configuration for the witness. -/
def witnessConfig : ValidatedConfig :=
  ⟨"db".toList, "SELECT 1".toList, "t.hbs".toList, [], "/r".toList, "/u".toList⟩

/-- C8 file environment for the witness: the main template file holds
MAIN, every other file (including the directory-scanned one that is
registered under the same reserved name) holds OTHER. -/
def sampleFS : FS :=
  ⟨fun path => if path = "/r/u/t.hbs".toList then .ok "MAIN".toList else .ok "OTHER".toList,
   fun _ => [("template".toList, "scanned/template.hbs".toList)]⟩

/-- C8 witness: in the pipeline over a registry that already binds the
reserved name, with directory scans that rebind it again, the final
lookup still serves the main template content. -/
theorem template_last_write_wins_witness :
    getTemplate
      (process okExecutor (hbsCaps sampleFS (fun tpl _ => .ok tpl)) ()
        [("template".toList, "OLD".toList)] witnessConfig
        (resolve_template_path witnessConfig) [] (some "/g".toList)).1
      "template".toList = some "MAIN".toList := by
  exact template_last_write_wins.2 Unit okExecutor sampleFS (fun tpl _ => .ok tpl) ()
    [("template".toList, "OLD".toList)] witnessConfig (resolve_template_path witnessConfig)
    [] (some "/g".toList) [] "MAIN".toList rfl rfl

/-- The header scan returns JSON exactly when some header passes the
Accept test. -/
theorem negotiateHeaders_json_iff (hs : List (Str × Str)) :
    negotiateHeaders hs = .json ↔
      hs.any (fun p => eqIgnoreAsciiCase p.1 "accept".toList && jsonAccepted p.2) = true := by
  induction hs with
  | nil => simp [negotiateHeaders]
  | cons h rest ih =>
    rcases h with ⟨k, v⟩
    rw [show negotiateHeaders ((k, v) :: rest) =
        (if eqIgnoreAsciiCase k "accept".toList then
          (if jsonAccepted v then ContentType.json else negotiateHeaders rest)
        else negotiateHeaders rest) from rfl]
    rw [show ((k, v) :: rest).any
          (fun p => eqIgnoreAsciiCase p.1 "accept".toList && jsonAccepted p.2) =
        ((eqIgnoreAsciiCase k "accept".toList && jsonAccepted v) ||
          rest.any (fun p => eqIgnoreAsciiCase p.1 "accept".toList && jsonAccepted p.2))
        from rfl]
    by_cases h1 : eqIgnoreAsciiCase k "accept".toList = true
    · rw [if_pos h1]
      by_cases h2 : jsonAccepted v = true
      · rw [if_pos h2, h1, h2]
        simp
      · have h2f : jsonAccepted v = false := by simpa using h2
        rw [if_neg h2, h1, h2f]
        simpa using ih
    · have h1f : eqIgnoreAsciiCase k "accept".toList = false := by simpa using h1
      rw [if_neg h1, h1f]
      simpa using ih

/-- C2 (amended): the negotiator reads only the preference headers, so
query-level data never influences the choice; it chooses JSON exactly
when some Accept header's lowercased value contains the structured-data
token with the rendered token absent or first occurring strictly later;
otherwise it chooses HTML. -/
theorem negotiate_content_type_spec (request : RequestModel) :
    (negotiate_content_type request = .json ↔
      request.headers.any
        (fun p => eqIgnoreAsciiCase p.1 "accept".toList && jsonAccepted p.2) = true) ∧
    (∀ args2 : List (Str × Str),
      negotiate_content_type ⟨args2, request.headers⟩ = negotiate_content_type request) :=
  ⟨negotiateHeaders_json_iff request.headers, fun _ => rfl⟩

/-- C2 witness: the specification applied at a request with a JSON
Accept header and at a request carrying extra query-level data. -/
theorem negotiate_content_type_spec_witness :
    negotiate_content_type jsonRequest = .json ∧
    negotiate_content_type ⟨[("format".toList, "json".toList)], jsonRequest.headers⟩ =
      negotiate_content_type jsonRequest := by
  refine ⟨(negotiate_content_type_spec jsonRequest).1.mpr (by decide), ?_⟩
  exact (negotiate_content_type_spec jsonRequest).2 [("format".toList, "json".toList)]

/-- C2 counterexample: a request that signals structured output only
through an explicit query-level flag receives the rendered
representation from the code, while the claimed policy chooses the
structured one. -/
theorem negotiate_flag_ignored :
    negotiate_content_type ⟨[("format".toList, "json".toList)], []⟩ = .html ∧
    negotiate_claimed true [] = .json :=
  ⟨rfl, rfl⟩

/-- C1 (amended): the orchestrator returns status 400 directly (without
emitting a body) on parameter-resolution failure; every other processed
request, including query-execution, template-registration and render
failures, is emitted with status 200 — failures carry an error body
rather than status 500. -/
theorem process_request_status_mapping {σR σQ σT : Type}
    (resolve : σR → Str → σR × Except Str Str)
    (execute : σQ → Str → Str → List (Str × Str) → Except Str (List Row))
    (caps : TemplateCaps σT) (jsonCaps : JsonCaps) (request : RequestModel)
    (rstate : σR) (qstate : σQ) (tstate : σT)
    (config : ValidatedConfig) (gdir : Option Str) :
    ((∃ e, (resolve_parameters resolve rstate config.parameters).2 = .error e) →
      (process_request resolve execute caps jsonCaps request rstate qstate tstate
        config gdir).2 = .status 400) ∧
    (∀ ps, (resolve_parameters resolve rstate config.parameters).2 = .ok ps →
      ∃ body ct,
        (process_request resolve execute caps jsonCaps request rstate qstate tstate
          config gdir).2 = .response 200 body ct) := by
  constructor
  · rintro ⟨e, he⟩
    simp [process_request, he]
  · intro ps hps
    simp only [process_request, hps]
    cases negotiate_content_type request with
    | json => exact ⟨_, _, rfl⟩
    | html =>
      rcases hp : process execute caps qstate tstate config (resolve_template_path config)
          ps gdir with ⟨t2, r⟩
      cases r with
      | ok html => exact ⟨html, .html, by simp [hp]⟩
      | error e => exact ⟨error_page e, .html, by simp [hp]⟩

/-- C1 witness: the amended mapping applied at a failing resolution
(status 400) and at a parameterless request (an emitted 200 response). -/
theorem process_request_status_mapping_witness :
    (process_request failResolver failExecutor unitCaps trivialJsonCaps emptyRequest
      () () () varConfig none).2 = .status 400 ∧
    ∃ body ct,
      (process_request trivialResolver failExecutor unitCaps trivialJsonCaps emptyRequest
        () () () sampleConfig none).2 = .response 200 body ct := by
  constructor
  · exact (process_request_status_mapping failResolver failExecutor unitCaps trivialJsonCaps
      emptyRequest () () () varConfig none).1 ⟨"nope".toList, rfl⟩
  · exact (process_request_status_mapping trivialResolver failExecutor unitCaps trivialJsonCaps
      emptyRequest () () () sampleConfig none).2 [] rfl

/-- C1 counterexample: a request whose query execution fails is emitted
with transport status 200 and an error-page body, not status 500 as the
claim states. -/
theorem process_request_query_failure_status :
    (process_request trivialResolver failExecutor unitCaps trivialJsonCaps emptyRequest
      () () () sampleConfig none).2 =
      .response 200 (error_page ("query execution failed: ".toList ++ "boom".toList)) .html ∧
    Outcome.code (process_request trivialResolver failExecutor unitCaps trivialJsonCaps
      emptyRequest () () () sampleConfig none).2 ≠ 500 :=
  ⟨rfl, by decide⟩

/-- C9: when the structured representation is chosen, the handler leaves
the template collaborator untouched (no load, registration or render is
performed, for every possible template capability) and emits the
serialized rows with status 200; when the rows serialize successfully
that serialization is the body, and when serialization fails the body
degrades to the empty list literal while the request still succeeds. -/
theorem structured_path_skips_templates {σR σQ σT : Type}
    (resolve : σR → Str → σR × Except Str Str)
    (execute : σQ → Str → Str → List (Str × Str) → Except Str (List Row))
    (caps : TemplateCaps σT) (jsonCaps : JsonCaps) (request : RequestModel)
    (rstate : σR) (qstate : σQ) (tstate : σT)
    (config : ValidatedConfig) (gdir : Option Str) (ps : List (Str × Str))
    (hres : (resolve_parameters resolve rstate config.parameters).2 = .ok ps)
    (hjson : negotiate_content_type request = .json) :
    process_request resolve execute caps jsonCaps request rstate qstate tstate config gdir =
      (tstate, .response 200 (execute_json execute jsonCaps qstate config ps) .json) ∧
    (∀ rows, execute qstate config.db_path config.query ps = .ok rows →
      execute_json execute jsonCaps qstate config ps =
        match jsonCaps.to_string_pretty rows with
        | .ok s => s
        | .error _ => "[]".toList) := by
  constructor
  · simp [process_request, hres, hjson]
  · intro rows hrows
    simp [execute_json, hrows]

/-- C9 witness: with a JSON Accept header and a row serializer that
fails, the request still succeeds with status 200 and the body degrades
to the empty list, and the template state is unchanged. -/
theorem structured_path_skips_templates_witness :
    process_request trivialResolver okExecutor unitCaps badSerializer jsonRequest
      () () () sampleConfig none = ((), .response 200 "[]".toList .json) := by
  have h := structured_path_skips_templates trivialResolver okExecutor unitCaps badSerializer
    jsonRequest () () () sampleConfig none [] rfl rfl
  rw [h.1, h.2 [] rfl]
  rfl

end SqliteServe
